import Mathlib

/-!
Verification of winereg (a pure-Python interface to the Wine registry that
shells out to the external `regedit` tool and speaks its REGEDIT4 text
format).  The development shallowly embeds the module's value codec
(`_map_type`, `_map_data`, `_unmap_type`, `_unmap_data`), its export-dump
scanning logic (`nth_subkey`, `nth_value`, `check`, `get_info`,
`get_value`), the `PyHKEY` handle layer (`join`, `Close`, `lookup`,
`__nonzero__`) and the `WineReg` orchestration methods.  Python 2 byte
strings are embedded as lists of character codes (`List Nat`, each code
below 256 where the source guarantees it); fallible code returns `Option`
or `Except`.  The external `regedit` collaborator is not part of the
repository; where its behaviour matters it is modelled from the spec's
description of the tool (subtree export, non-zero exit on a missing key,
REGEDIT4 import commands) and marked as such.
-/

namespace Winereg

/-! ## Registry type constants (module-level constants of the source) -/

abbrev REG_SZ : Nat := 1
abbrev REG_EXPAND_SZ : Nat := 2
abbrev REG_BINARY : Nat := 3
abbrev REG_DWORD : Nat := 4
abbrev REG_DWORD_LITTLE_ENDIAN : Nat := 4
abbrev REG_DWORD_BIG_ENDIAN : Nat := 5
abbrev REG_MULTI_SZ : Nat := 7

/-! ## Python string primitives

Byte strings are `List Nat` of character codes.  `hex(n)[2:]` (lowercase,
no padding), `int(s, 16)`, `chr`, `str.split`, `str.join`, `str.rjust` and
`str.strip` are embedded below with Python 2 semantics at the call sites
the source uses them (`int(s,16)` is embedded on plain hex-digit strings,
the only shape the module's own grammar produces). -/

/-- Lowercase hex digit character code for a value below 16, as Python's
`hex` renders digits. -/
def toHexDigit (d : Nat) : Nat := if d < 10 then 48 + d else 87 + d

/-- Accumulator core of `hex(n)[2:]`: most-significant digit first.  Fuel
makes the recursion structural; any fuel above the digit count of `n`
computes the same list, and `toHex` passes `n + 1`. -/
def toHexCore : Nat → Nat → List Nat → List Nat
  | 0, _, acc => acc
  | fuel + 1, n, acc =>
    if n < 16 then toHexDigit n :: acc
    else toHexCore fuel (n / 16) (toHexDigit (n % 16) :: acc)

/-- Python `hex(n)[2:]` for a nonnegative integer: lowercase hex digits,
no padding, `"0"` for zero. -/
def toHex (n : Nat) : List Nat := toHexCore (n + 1) n []

/-- Python `s.rjust(8, "0")`: pad on the left with `'0'` (code 48) up to
length 8. -/
def rjust8 (s : List Nat) : List Nat := List.replicate (8 - s.length) 48 ++ s

/-- Value of one hex digit character as `int(_, 16)` accepts it (decimal
digits, lowercase and uppercase letters). -/
def hexDigitVal (c : Nat) : Option Nat :=
  if 48 ≤ c ∧ c ≤ 57 then some (c - 48)
  else if 97 ≤ c ∧ c ≤ 102 then some (c - 87)
  else if 65 ≤ c ∧ c ≤ 70 then some (c - 55)
  else none

/-- Fold of `int(s, 16)` over the digit characters. -/
def parseHexAux : List Nat → Nat → Option Nat
  | [], acc => some acc
  | c :: cs, acc =>
    match hexDigitVal c with
    | some d => parseHexAux cs (16 * acc + d)
    | none => none

/-- Python `int(s, 16)` on a plain digit string; the empty string raises. -/
def parseHex (s : List Nat) : Option Nat :=
  match s with
  | [] => none
  | _ => parseHexAux s 0

/-- Python 2 `chr(n)`: the byte with code `n`, failing for `n ≥ 256`. -/
def pyChr (n : Nat) : Option Nat := if n < 256 then some n else none

/-- Python `s.split(sep)` for a one-character separator `a`: leftmost,
non-overlapping, keeping empty pieces. -/
def split1 (a : Nat) : List Nat → List (List Nat)
  | [] => [[]]
  | c :: cs =>
    if c = a then [] :: split1 a cs
    else
      match split1 a cs with
      | [] => [[c]]
      | r :: rs => (c :: r) :: rs

/-- Python `s.split(sep)` for a two-character separator `a b`: leftmost,
non-overlapping, keeping empty pieces. -/
def split2 (a b : Nat) : List Nat → List (List Nat)
  | [] => [[]]
  | [c] => [[c]]
  | c :: d :: cs =>
    if c = a ∧ d = b then [] :: split2 a b cs
    else
      match split2 a b (d :: cs) with
      | [] => [[c]]
      | r :: rs => (c :: r) :: rs

/-- Python `sep.join(pieces)`. -/
def joinSep (sep : List Nat) : List (List Nat) → List Nat
  | [] => []
  | [p] => p
  | p :: ps => p ++ sep ++ joinSep sep ps

/-- Option-valued map over a list, as a Python comprehension whose body
may raise: the first failure fails the whole comprehension. -/
def optMapM (f : α → Option β) : List α → Option (List β)
  | [] => some []
  | a :: as =>
    match f a, optMapM f as with
    | some b, some bs => some (b :: bs)
    | _, _ => none

/-! ## Value codec (`_map_type`, `_map_data`, `_unmap_type`, `_unmap_data`)

Typed registry data is heterogeneous in Python (str, int, or list of str
depending on the registry type); `RegData` is its embedding.  The codec
functions return `none` where the source raises (`ValueError` for an
unsupported type; a shape that does not fit the type would fail in Python
too, on `hex`/`ord`). -/

inductive RegData where
  | str (s : List Nat)
  | num (n : Nat)
  | strs (l : List (List Nat))
deriving DecidableEq

/-- REGEDIT4 type identifier strings: `"dword:"`, `"hex:"`, `"hex(7):"`,
`"hex(2):"` as character-code lists. -/
def strDword : List Nat := [100, 119, 111, 114, 100, 58]
def strHex : List Nat := [104, 101, 120, 58]
def strHex7 : List Nat := [104, 101, 120, 40, 55, 41, 58]
def strHex2 : List Nat := [104, 101, 120, 40, 50, 41, 58]

/-- Source `_map_type`: type constant to its .REG file identifier. -/
def mapType (t : Nat) : Option (List Nat) :=
  if t = REG_SZ then some []
  else if t = REG_DWORD ∨ t = REG_DWORD_LITTLE_ENDIAN ∨ t = REG_DWORD_BIG_ENDIAN then
    some strDword
  else if t = REG_BINARY then some strHex
  else if t = REG_MULTI_SZ then some strHex7
  else if t = REG_EXPAND_SZ then some strHex2
  else none

/-- Payload of one byte string under `REG_BINARY`:
`",".join(hex(ord(b))[2:] for b in data)` — unpadded lowercase hex,
comma separated. -/
def mapBinary (s : List Nat) : List Nat := joinSep [44] (s.map toHex)

/-- Source `_map_data`: value to its .REG file representation.  The
`REG_SZ` branch returns the data unchanged (the source returns the object
as-is; the embedding restricts it to string data, the only shape the
module ever passes). -/
def mapData (data : RegData) (t : Nat) : Option (List Nat) :=
  if t = REG_SZ then
    match data with
    | RegData.str s => some s
    | _ => none
  else if t = REG_DWORD ∨ t = REG_DWORD_LITTLE_ENDIAN ∨ t = REG_DWORD_BIG_ENDIAN then
    match data with
    | RegData.num n => some (rjust8 (toHex n))
    | _ => none
  else if t = REG_BINARY then
    match data with
    | RegData.str s => some (mapBinary s)
    | _ => none
  else if t = REG_MULTI_SZ then
    match data with
    | RegData.strs l => some (joinSep [48, 48] (l.map mapBinary))
    | _ => none
  else if t = REG_EXPAND_SZ then
    match data with
    | RegData.str s => some (mapBinary s)
    | _ => none
  else none

/-- Source `_unmap_type`: .REG file identifier back to the type constant;
an empty (falsy) identifier is `REG_SZ`. -/
def unmapType (s : List Nat) : Option Nat :=
  if s = [] then some REG_SZ
  else if s = strDword then some REG_DWORD
  else if s = strHex then some REG_BINARY
  else if s = strHex7 then some REG_MULTI_SZ
  else if s = strHex2 then some REG_EXPAND_SZ
  else none

/-- Binary payload decoding:
`"".join(chr(int(c,16)) for c in data.split(",") if c)` — empty pieces
are filtered, each remaining piece is parsed as hex and turned into one
byte. -/
def unmapBinary (p : List Nat) : Option (List Nat) :=
  optMapM (fun c => (parseHex c).bind pyChr) ((split1 44 p).filter (fun c => !c.isEmpty))

/-- Source `_unmap_data`: .REG file representation back to the value.  The
MultiString branch splits the payload text on the two characters `"00"`
and binary-decodes each piece. -/
def unmapData (p : List Nat) (t : Nat) : Option RegData :=
  if t = REG_SZ then some (RegData.str p)
  else if t = REG_DWORD ∨ t = REG_DWORD_LITTLE_ENDIAN ∨ t = REG_DWORD_BIG_ENDIAN then
    (parseHex p).map RegData.num
  else if t = REG_BINARY then (unmapBinary p).map RegData.str
  else if t = REG_MULTI_SZ then (optMapM unmapBinary (split2 48 48 p)).map RegData.strs
  else if t = REG_EXPAND_SZ then (unmapBinary p).map RegData.str
  else none

/-- Well-typedness of a (type, data) pair: the data has the Python shape
the type calls for, byte strings hold bytes, and a DWord is in range. -/
def wellTypedB (t : Nat) (d : RegData) : Bool :=
  if t = REG_SZ then
    match d with
    | RegData.str s => s.all (fun b => decide (b < 256))
    | _ => false
  else if t = REG_DWORD ∨ t = REG_DWORD_LITTLE_ENDIAN ∨ t = REG_DWORD_BIG_ENDIAN then
    match d with
    | RegData.num n => decide (n < 2 ^ 32)
    | _ => false
  else if t = REG_BINARY ∨ t = REG_EXPAND_SZ then
    match d with
    | RegData.str s => s.all (fun b => decide (b < 256))
    | _ => false
  else if t = REG_MULTI_SZ then
    match d with
    | RegData.strs l => l.all (fun s => s.all (fun b => decide (b < 256)))
    | _ => false
  else false

/-- Lowercase hex digit character (what the spec's table promises the
payload consists of). -/
def isLowerHexDigit (c : Nat) : Bool :=
  decide ((48 ≤ c ∧ c ≤ 57) ∨ (97 ≤ c ∧ c ≤ 102))

/-- Rendering the spec's words require for one binary byte: exactly two
lowercase hex digits, zero-padded below 0x10.  Stated from the spec, to be
compared against the source's `mapBinary`. -/
def specTwoDigitByte (b : Nat) : List Nat :=
  if (toHex b).length = 1 then 48 :: toHex b else toHex b

/-- Payload the spec's words require for Binary data: comma-separated
two-digit lowercase hex bytes. -/
def specBinaryPayload (s : List Nat) : List Nat := joinSep [44] (s.map specTwoDigitByte)

/-! ## Hex rendering and parsing lemmas -/

theorem hexDigitVal_toHexDigit (d : Nat) (h : d < 16) :
    hexDigitVal (toHexDigit d) = some d := by
  unfold toHexDigit hexDigitVal
  by_cases h10 : d < 10
  · rw [if_pos h10, if_pos (by omega : 48 ≤ 48 + d ∧ 48 + d ≤ 57)]
    congr 1
    omega
  · rw [if_neg h10, if_neg (by omega : ¬(48 ≤ 87 + d ∧ 87 + d ≤ 57)),
      if_pos (by omega : 97 ≤ 87 + d ∧ 87 + d ≤ 102)]
    congr 1
    omega

theorem toHexCore_append (fuel : Nat) : ∀ (n : Nat) (acc : List Nat),
    toHexCore fuel n acc = toHexCore fuel n [] ++ acc := by
  induction fuel with
  | zero => intro n acc; rfl
  | succ f ih =>
    intro n acc
    by_cases h : n < 16
    · simp [toHexCore, h]
    · simp only [toHexCore, if_neg h]
      rw [ih (n / 16) (toHexDigit (n % 16) :: acc), ih (n / 16) [toHexDigit (n % 16)]]
      simp

theorem toHexCore_fuel : ∀ (n f₁ f₂ : Nat), n < f₁ → n < f₂ →
    toHexCore f₁ n [] = toHexCore f₂ n [] := by
  intro n
  induction n using Nat.strong_induction_on with
  | _ n ih =>
    intro f₁ f₂ h1 h2
    obtain ⟨g₁, rfl⟩ : ∃ g, f₁ = g + 1 := ⟨f₁ - 1, by omega⟩
    obtain ⟨g₂, rfl⟩ : ∃ g, f₂ = g + 1 := ⟨f₂ - 1, by omega⟩
    by_cases h : n < 16
    · simp [toHexCore, h]
    · simp only [toHexCore, if_neg h]
      rw [toHexCore_append g₁, toHexCore_append g₂]
      have hd : n / 16 < n := Nat.div_lt_self (by omega) (by omega)
      rw [ih (n / 16) hd g₁ g₂ (by omega) (by omega)]

theorem toHex_lt {n : Nat} (h : n < 16) : toHex n = [toHexDigit n] := by
  simp [toHex, toHexCore, h]

theorem toHex_ge {n : Nat} (h : 16 ≤ n) :
    toHex n = toHex (n / 16) ++ [toHexDigit (n % 16)] := by
  have hd : n / 16 < n := Nat.div_lt_self (by omega) (by omega)
  have step : toHex n = toHexCore n (n / 16) [toHexDigit (n % 16)] := by
    rw [toHex, show toHexCore (n + 1) n [] =
      if n < 16 then [toHexDigit n]
      else toHexCore n (n / 16) [toHexDigit (n % 16)] from rfl]
    rw [if_neg (by omega : ¬n < 16)]
  rw [step, toHexCore_append n (n / 16) [toHexDigit (n % 16)],
    toHexCore_fuel (n / 16) n (n / 16 + 1) (by omega) (by omega)]
  rfl

theorem toHex_ne_nil (n : Nat) : toHex n ≠ [] := by
  by_cases h : n < 16
  · rw [toHex_lt h]; simp
  · rw [toHex_ge (by omega)]; simp

theorem parseHexAux_append : ∀ (l₁ l₂ : List Nat) (acc : Nat),
    parseHexAux (l₁ ++ l₂) acc = (parseHexAux l₁ acc).bind (fun v => parseHexAux l₂ v) := by
  intro l₁
  induction l₁ with
  | nil => intro l₂ acc; rfl
  | cons c cs ih =>
    intro l₂ acc
    cases h : hexDigitVal c with
    | none => simp only [List.cons_append, parseHexAux, h]; rfl
    | some d =>
      simp only [List.cons_append, parseHexAux, h]
      exact ih l₂ (16 * acc + d)

theorem parseHexAux_toHex : ∀ (n : Nat), ∀ (acc : Nat),
    parseHexAux (toHex n) acc = some (acc * 16 ^ (toHex n).length + n) := by
  intro n
  induction n using Nat.strong_induction_on with
  | _ n ih =>
    intro acc
    by_cases h : n < 16
    · rw [toHex_lt h]
      simp only [parseHexAux, hexDigitVal_toHexDigit n h, List.length_singleton]
      congr 1
      rw [pow_one]
      omega
    · rw [toHex_ge (by omega)]
      rw [parseHexAux_append]
      have hd : n / 16 < n := Nat.div_lt_self (by omega) (by omega)
      rw [ih (n / 16) hd acc]
      simp only [Option.some_bind, parseHexAux,
        hexDigitVal_toHexDigit (n % 16) (Nat.mod_lt n (by omega)),
        List.length_append, List.length_singleton]
      congr 1
      rw [pow_succ]
      have h2 : acc * (16 ^ (toHex (n / 16)).length * 16)
          = 16 * (acc * 16 ^ (toHex (n / 16)).length) := by ring
      rw [h2]
      have h1 := Nat.div_add_mod n 16
      generalize acc * 16 ^ (toHex (n / 16)).length = B at *
      omega

theorem parseHex_eq_aux {l : List Nat} (h : l ≠ []) : parseHex l = parseHexAux l 0 := by
  cases l with
  | nil => exact absurd rfl h
  | cons c cs => rfl

theorem parseHex_toHex (n : Nat) : parseHex (toHex n) = some n := by
  rw [parseHex_eq_aux (toHex_ne_nil n), parseHexAux_toHex]
  simp

theorem parseHexAux_zeros : ∀ (k : Nat), parseHexAux (List.replicate k 48) 0 = some 0 := by
  intro k
  induction k with
  | zero => rfl
  | succ k ih =>
    rw [List.replicate_succ]
    have h48 : hexDigitVal 48 = some 0 := rfl
    simp only [parseHexAux, h48]
    exact ih

theorem parseHex_rjust8_toHex (n : Nat) : parseHex (rjust8 (toHex n)) = some n := by
  unfold rjust8
  rw [parseHex_eq_aux (by simp [toHex_ne_nil n]), parseHexAux_append, parseHexAux_zeros]
  rw [Option.some_bind, parseHexAux_toHex]
  simp

theorem toHexDigit_lower {d : Nat} (h : d < 16) : isLowerHexDigit (toHexDigit d) = true := by
  simp only [isLowerHexDigit, toHexDigit, decide_eq_true_eq]
  by_cases h10 : d < 10
  · rw [if_pos h10]; omega
  · rw [if_neg h10]; omega

theorem toHex_lower (n : Nat) : ∀ c ∈ toHex n, isLowerHexDigit c = true := by
  induction n using Nat.strong_induction_on with
  | _ n ih =>
    by_cases h : n < 16
    · rw [toHex_lt h]
      intro c hc
      simp only [List.mem_singleton] at hc
      subst hc
      exact toHexDigit_lower h
    · rw [toHex_ge (by omega)]
      intro c hc
      rcases List.mem_append.mp hc with h1 | h1
      · exact ih (n / 16) (Nat.div_lt_self (by omega) (by omega)) c h1
      · simp only [List.mem_singleton] at h1
        subst h1
        exact toHexDigit_lower (Nat.mod_lt n (by omega))

theorem toHex_ge48 (n : Nat) : ∀ c ∈ toHex n, 48 ≤ c := by
  intro c hc
  have h := toHex_lower n c hc
  simp only [isLowerHexDigit, decide_eq_true_eq] at h
  omega

theorem comma_not_mem_toHex (n : Nat) : ¬44 ∈ toHex n := by
  intro h
  have := toHex_ge48 n 44 h
  omega

theorem toHex_length_le : ∀ (k : Nat), ∀ (n : Nat), 1 ≤ k → n < 16 ^ k →
    (toHex n).length ≤ k := by
  intro k
  induction k with
  | zero => intro n h; omega
  | succ k ih =>
    intro n _ hn
    by_cases h : n < 16
    · rw [toHex_lt h]
      simp
    · rw [toHex_ge (by omega)]
      have hk : 1 ≤ k := by
        by_contra hk0
        have hk' : k = 0 := by omega
        subst hk'
        rw [pow_one] at hn
        omega
      have hdiv : n / 16 < 16 ^ k := by
        rw [Nat.div_lt_iff_lt_mul (by omega : 0 < 16)]
        calc n < 16 ^ (k + 1) := hn
          _ = 16 ^ k * 16 := pow_succ 16 k
      have := ih (n / 16) hk hdiv
      rw [List.length_append, List.length_singleton]
      omega

theorem toHex_length_one {b : Nat} (h : b < 16) : (toHex b).length = 1 := by
  rw [toHex_lt h]
  rfl

theorem toHex_length_two {b : Nat} (h16 : 16 ≤ b) (h256 : b < 256) :
    (toHex b).length = 2 := by
  rw [toHex_ge h16, toHex_lt (by omega : b / 16 < 16)]
  rfl

/-! ## Split and join lemmas -/

theorem split1_not_mem {a : Nat} : ∀ {p : List Nat}, a ∉ p → split1 a p = [p] := by
  intro p
  induction p with
  | nil => intro; rfl
  | cons c cs ih =>
    intro h
    have hca : ¬c = a := fun hc => h (by simp [hc])
    simp only [split1, if_neg hca, ih (fun hm => h (List.mem_cons_of_mem c hm))]

theorem split1_append {a : Nat} : ∀ (p rest : List Nat), a ∉ p →
    split1 a (p ++ a :: rest) = p :: split1 a rest := by
  intro p
  induction p with
  | nil =>
    intro rest _
    simp [split1]
  | cons c cs ih =>
    intro rest h
    have hca : ¬c = a := fun hc => h (by simp [hc])
    have ih' := ih rest (fun hm => h (List.mem_cons_of_mem c hm))
    simp only [List.cons_append, split1, if_neg hca, List.append_eq, ih']

theorem split1_joinSep {a : Nat} : ∀ (ps : List (List Nat)), ps ≠ [] →
    (∀ p ∈ ps, a ∉ p) → split1 a (joinSep [a] ps) = ps := by
  intro ps
  induction ps with
  | nil => intro h; exact absurd rfl h
  | cons p ps ih =>
    intro _ hmem
    cases ps with
    | nil => exact split1_not_mem (hmem p (by simp))
    | cons q rest =>
      show split1 a (p ++ [a] ++ joinSep [a] (q :: rest)) = p :: q :: rest
      rw [List.append_assoc, List.singleton_append,
        split1_append p _ (hmem p (by simp)),
        ih (by simp) (fun x hx => hmem x (List.mem_cons_of_mem p hx))]

/-! ## Binary codec round-trip -/

theorem optMapM_toHex : ∀ (s : List Nat), (∀ b ∈ s, b < 256) →
    optMapM (fun c => (parseHex c).bind pyChr) (s.map toHex) = some s := by
  intro s
  induction s with
  | nil => intro; rfl
  | cons b bs ih =>
    intro h
    have h1 : (parseHex (toHex b)).bind pyChr = some b := by
      rw [parseHex_toHex]
      simp [pyChr, h b (by simp)]
    simp only [List.map_cons, optMapM, h1,
      ih (fun x hx => h x (List.mem_cons_of_mem b hx))]

theorem unmapBinary_mapBinary (s : List Nat) (h : ∀ b ∈ s, b < 256) :
    unmapBinary (mapBinary s) = some s := by
  cases s with
  | nil => rfl
  | cons b bs =>
    unfold unmapBinary mapBinary
    rw [split1_joinSep ((b :: bs).map toHex) (by simp) ?pieces]
    case pieces =>
      intro p hp
      rcases List.mem_map.mp hp with ⟨x, _, rfl⟩
      exact comma_not_mem_toHex x
    rw [List.filter_eq_self.mpr ?nonempty]
    case nonempty =>
      intro p hp
      rcases List.mem_map.mp hp with ⟨x, _, rfl⟩
      simp [List.isEmpty_iff, toHex_ne_nil x]
    exact optMapM_toHex (b :: bs) h

theorem optMapM_unmapBinary : ∀ (l : List (List Nat)),
    (∀ s ∈ l, ∀ b ∈ s, b < 256) →
    optMapM unmapBinary (l.map mapBinary) = some l := by
  intro l
  induction l with
  | nil => intro; rfl
  | cons s ss ih =>
    intro h
    simp only [List.map_cons, optMapM, unmapBinary_mapBinary s (h s (by simp)),
      ih (fun x hx => h x (List.mem_cons_of_mem s hx))]

/-! ## Claim C1: codec round-trip -/

/-- C1 (amended): for every (type, data) pair that is well typed (data has
the Python shape the type calls for, bytes below 256, DWords below 2^32),
decoding the encoding recovers the original data and
`_unmap_type (_map_type t) = t`, the two DWord endiannesses both decoding
to `REG_DWORD` — for MultiString under the side condition that splitting
the joined payload on the two characters `"00"` recovers exactly the
components' binary encodings (the textual split makes this fail for some
data, e.g. a component with a leading NUL byte). -/
theorem c1_codec_roundtrip (t : Nat) (d : RegData)
    (hw : wellTypedB t d = true)
    (hm : ∀ l : List (List Nat), t = REG_MULTI_SZ → d = RegData.strs l →
      split2 48 48 (joinSep [48, 48] (l.map mapBinary)) = l.map mapBinary) :
    (mapType t).bind unmapType
      = some (if t = REG_DWORD_BIG_ENDIAN then REG_DWORD else t) ∧
    (mapData d t).bind (fun p => unmapData p t) = some d := by
  by_cases h1 : t = 1
  · subst h1
    cases d with
    | str s => exact ⟨by decide, rfl⟩
    | num n => simp [wellTypedB] at hw
    | strs l => simp [wellTypedB] at hw
  · by_cases h4 : t = 4
    · subst h4
      cases d with
      | num n =>
        refine ⟨by decide, ?_⟩
        show (parseHex (rjust8 (toHex n))).map RegData.num = some (RegData.num n)
        rw [parseHex_rjust8_toHex]
        rfl
      | str s => simp [wellTypedB] at hw
      | strs l => simp [wellTypedB] at hw
    · by_cases h5 : t = 5
      · subst h5
        cases d with
        | num n =>
          refine ⟨by decide, ?_⟩
          show (parseHex (rjust8 (toHex n))).map RegData.num = some (RegData.num n)
          rw [parseHex_rjust8_toHex]
          rfl
        | str s => simp [wellTypedB, h4] at hw
        | strs l => simp [wellTypedB, h4] at hw
      · by_cases h3 : t = 3
        · subst h3
          cases d with
          | str s =>
            refine ⟨by decide, ?_⟩
            show (unmapBinary (mapBinary s)).map RegData.str = some (RegData.str s)
            have hs : ∀ b ∈ s, b < 256 := by
              simp only [wellTypedB] at hw
              norm_num at hw
              simpa using hw
            rw [unmapBinary_mapBinary s hs]
            rfl
          | num n => simp [wellTypedB, h4, h5] at hw
          | strs l => simp [wellTypedB, h4, h5] at hw
        · by_cases h7 : t = 7
          · subst h7
            cases d with
            | strs l =>
              refine ⟨by decide, ?_⟩
              show (optMapM unmapBinary
                (split2 48 48 (joinSep [48, 48] (l.map mapBinary)))).map RegData.strs
                  = some (RegData.strs l)
              rw [hm l rfl rfl]
              have hl : ∀ s ∈ l, ∀ b ∈ s, b < 256 := by
                simp only [wellTypedB] at hw
                norm_num at hw
                simpa using hw
              rw [optMapM_unmapBinary l hl]
              rfl
            | str s => simp [wellTypedB, h4, h5, h3] at hw
            | num n => simp [wellTypedB, h4, h5, h3] at hw
          · by_cases h2 : t = 2
            · subst h2
              cases d with
              | str s =>
                refine ⟨by decide, ?_⟩
                show (unmapBinary (mapBinary s)).map RegData.str = some (RegData.str s)
                have hs : ∀ b ∈ s, b < 256 := by
                  simp only [wellTypedB] at hw
                  norm_num at hw
                  simpa using hw
                rw [unmapBinary_mapBinary s hs]
                rfl
              | num n => simp [wellTypedB, h4, h5, h3, h7] at hw
              | strs l => simp [wellTypedB, h4, h5, h3, h7] at hw
            · simp [wellTypedB, h1, h4, h5, h3, h7, h2] at hw

/-- C1 counterexample: the claim as stated fails for MultiString.  The
list `["\x00", "a"]` encodes to the payload `"00061"`, whose textual split
on `"00"` decodes back to `["", "a"]`, not the original list. -/
theorem c1_counterexample :
    (mapData (RegData.strs [[0], [97]]) REG_MULTI_SZ).bind
        (fun p => unmapData p REG_MULTI_SZ) = some (RegData.strs [[], [97]]) ∧
    (mapData (RegData.strs [[0], [97]]) REG_MULTI_SZ).bind
        (fun p => unmapData p REG_MULTI_SZ) ≠ some (RegData.strs [[0], [97]]) := by
  constructor
  · decide
  · decide

/-- C1 witness: the round-trip theorem applied to the concrete MultiString
`["a", "b"]`, whose payload splits cleanly. -/
theorem c1_witness :
    (mapType 7).bind unmapType
      = some (if (7 : Nat) = REG_DWORD_BIG_ENDIAN then REG_DWORD else 7) ∧
    (mapData (RegData.strs [[97], [98]]) 7).bind (fun p => unmapData p 7)
      = some (RegData.strs [[97], [98]]) :=
  c1_codec_roundtrip 7 (RegData.strs [[97], [98]]) (by decide)
    (by intro l h7 hd; injection hd with h; cases h; decide)

/-! ## Claim C4: binary payload rendering -/

/-- C4 (amended): encoding with type Binary renders every byte as its
unpadded lowercase hexadecimal representation — one digit for bytes below
0x10, two digits otherwise — joined with commas, and ExpandableString
produces exactly the same payload encoding as Binary. -/
theorem c4_binary_encoding (s : List Nat) (h : ∀ b ∈ s, b < 256) :
    mapData (RegData.str s) REG_BINARY = some (joinSep [44] (s.map toHex)) ∧
    mapData (RegData.str s) REG_EXPAND_SZ = mapData (RegData.str s) REG_BINARY ∧
    ∀ b ∈ s, (∀ c ∈ toHex b, isLowerHexDigit c = true) ∧
      (toHex b).length = (if b < 16 then 1 else 2) := by
  refine ⟨rfl, rfl, ?_⟩
  intro b hb
  refine ⟨toHex_lower b, ?_⟩
  by_cases hb16 : b < 16
  · rw [if_pos hb16]
    exact toHex_length_one hb16
  · rw [if_neg hb16]
    exact toHex_length_two (by omega) (h b hb)

/-- C4 counterexample: the byte 0x05 is rendered as the single digit
`"5"`, not the two-digit zero-padded `"05"` the claim requires. -/
theorem c4_counterexample :
    mapData (RegData.str [5]) REG_BINARY = some [53] ∧
    specBinaryPayload [5] = [48, 53] ∧
    mapData (RegData.str [5]) REG_BINARY ≠ some (specBinaryPayload [5]) := by
  refine ⟨by decide, by decide, by decide⟩

/-- C4 witness: the encoding theorem applied to the concrete byte string
`"\x00\xff"`. -/
theorem c4_witness :
    mapData (RegData.str [0, 255]) REG_BINARY
      = some (joinSep [44] ([0, 255].map toHex)) ∧
    mapData (RegData.str [0, 255]) REG_EXPAND_SZ
      = mapData (RegData.str [0, 255]) REG_BINARY ∧
    ∀ b ∈ [0, 255], (∀ c ∈ toHex b, isLowerHexDigit c = true) ∧
      (toHex b).length = (if b < 16 then 1 else 2) :=
  c4_binary_encoding [0, 255] (by decide)

/-! ## Claim C5: DWord payload shape -/

/-- C5: for every integer below 2^32 and either DWord type constant, the
encoded payload is exactly 8 lowercase hex digit characters, zero-padded
on the left. -/
theorem c5_dword_payload (t n : Nat) (ht : t = REG_DWORD ∨ t = REG_DWORD_BIG_ENDIAN)
    (hn : n < 2 ^ 32) :
    ∃ p, mapData (RegData.num n) t = some p ∧ p.length = 8 ∧
      (∀ c ∈ p, isLowerHexDigit c = true) ∧
      p = List.replicate (8 - (toHex n).length) 48 ++ toHex n := by
  have h16 : (16 : Nat) ^ 8 = 2 ^ 32 := by norm_num
  have hlen : (toHex n).length ≤ 8 := toHex_length_le 8 n (by omega) (by omega)
  refine ⟨rjust8 (toHex n), ?_, ?_, ?_, rfl⟩
  · rcases ht with rfl | rfl <;> rfl
  · rw [rjust8, List.length_append, List.length_replicate]
    omega
  · intro c hc
    rw [rjust8] at hc
    rcases List.mem_append.mp hc with hm | hm
    · rw [List.eq_of_mem_replicate hm]
      decide
    · exact toHex_lower n c hm

/-- C5 witness: the payload-shape theorem applied at the concrete DWord
value 255. -/
theorem c5_witness :
    ∃ p, mapData (RegData.num 255) REG_DWORD = some p ∧ p.length = 8 ∧
      (∀ c ∈ p, isLowerHexDigit c = true) ∧
      p = List.replicate (8 - (toHex 255).length) 48 ++ toHex 255 :=
  c5_dword_payload REG_DWORD 255 (Or.inl rfl) (by norm_num)

/-! ## Export records and the scanning operations

`_regread` yields one `(key, name, data, type)` tuple per parsed line of
an export dump: key-header lines yield `(key, None, None, None)`, value
lines yield the decoded value with the enclosing key, an `@` name parsed
as the empty string.  The consumers below scan such record lists exactly
as the source's loops do. -/

structure Record where
  key : List Nat
  name : Option (List Nat)
  data : Option RegData
  type : Option Nat
deriving DecidableEq

/-- Python truthiness of a record's name field: `not name` is true for
both `None` and the empty string. -/
def nameFalsy : Option (List Nat) → Bool
  | none => true
  | some s => s.isEmpty

/-- Loop body of `nth_value`: skip records not on the key or with a falsy
name, count the rest, return the record once the count passes `n`. -/
def nthValueScan (path : List Nat) (n : Nat) :
    List Record → Nat → Option (List Nat × Option RegData × Option Nat)
  | [], _ => none
  | r :: rs, seen =>
    if ¬r.key = path ∨ nameFalsy r.name = true then nthValueScan path n rs seen
    else if n < seen + 1 then some (r.name.getD [], r.data, r.type)
    else nthValueScan path n rs (seen + 1)

/-- Source `nth_value(n)` over a parsed record list; `none` models the
raised `WindowsError` when fewer than `n + 1` matching records exist. -/
def nthValue (path : List Nat) (n : Nat) (recs : List Record) :
    Option (List Nat × Option RegData × Option Nat) :=
  nthValueScan path n recs 0

/-- Loop body of `nth_subkey`: consider only key-header records (name
`None`), count those whose key differs from `path` and whose tail beyond
`path` plus one separator has no backslash, return the key once the count
passes `n`. -/
def nthSubkeyScan (path : List Nat) (n : Nat) : List Record → Nat → Option (List Nat)
  | [], _ => none
  | r :: rs, seen =>
    match r.name with
    | some _ => nthSubkeyScan path n rs seen
    | none =>
      if ¬r.key = path ∧ (r.key.drop (path.length + 1)).contains 92 = false then
        if n < seen + 1 then some r.key else nthSubkeyScan path n rs (seen + 1)
      else nthSubkeyScan path n rs seen

/-- Source `nth_subkey(n)` over a parsed record list. -/
def nthSubkey (path : List Nat) (n : Nat) (recs : List Record) : Option (List Nat) :=
  nthSubkeyScan path n recs 0

/-- Source `get_value(value_name)`: first record on the key whose name
matches, as a `(data, type)` pair. -/
def getValue (path name : List Nat) : List Record → Option (Option RegData × Option Nat)
  | [] => none
  | r :: rs =>
    if r.key = path ∧ r.name = some name then some (r.data, r.type)
    else getValue path name rs

/-- Source `get_info()` counting pass: `(num_subkeys, num_values, 0)`.
Values are records on the key whose name is not `None` (the default value
counts here); subkeys are key headers strictly below with no further
backslash. -/
def getInfoCounts (path : List Nat) (recs : List Record) : Nat × Nat × Nat :=
  (recs.countP (fun r =>
      r.name.isNone && !decide (r.key = path) &&
        !(r.key.drop (path.length + 1)).contains 92),
    recs.countP (fun r => decide (r.key = path) && r.name.isSome), 0)

/-- Python `key.split("\\")[-1]`: last backslash-separated segment. -/
def lastSegment (k : List Nat) : List Nat := ((split1 92 k).getLast?).getD []

/-- Code-level predicate `nth_value` counts by: record on the key with a
truthy name. -/
def valueRecB (path : List Nat) (r : Record) : Bool :=
  decide (r.key = path) && !nameFalsy r.name

/-- Code-level predicate `nth_subkey` counts by. -/
def subkeyRecB (path : List Nat) (r : Record) : Bool :=
  r.name.isNone && !decide (r.key = path) &&
    !(r.key.drop (path.length + 1)).contains 92

/-- Spec-level direct-child predicate: exactly one path segment deeper
than `path`. -/
def isDirectChildB (path k : List Nat) : Bool :=
  (path ++ [92]).isPrefixOf k && !((k.drop (path.length + 1)).contains 92)

theorem nthValueScan_eq (path : List Nat) (n : Nat) :
    ∀ (recs : List Record) (seen : Nat), seen ≤ n →
    nthValueScan path n recs seen =
      ((recs.filter (valueRecB path)).get? (n - seen)).map
        (fun r => (r.name.getD [], r.data, r.type)) := by
  intro recs
  induction recs with
  | nil => intro seen _; rfl
  | cons r rs ih =>
    intro seen hseen
    by_cases hskip : ¬r.key = path ∨ nameFalsy r.name = true
    · have hpred : valueRecB path r = false := by
        rcases hskip with h | h
        · simp [valueRecB, h]
        · simp [valueRecB, h]
      rw [show nthValueScan path n (r :: rs) seen = nthValueScan path n rs seen from by
        simp [nthValueScan, hskip]]
      rw [List.filter_cons_of_neg (by simp [hpred])]
      exact ih seen hseen
    · push_neg at hskip
      obtain ⟨hkey, hname⟩ := hskip
      have hpred : valueRecB path r = true := by
        simp [valueRecB, hkey, hname]
      rw [List.filter_cons_of_pos hpred]
      by_cases hn : n < seen + 1
      · have hzero : n - seen = 0 := by omega
        rw [show nthValueScan path n (r :: rs) seen
            = some (r.name.getD [], r.data, r.type) from by
          simp [nthValueScan, hkey, hname, hn]]
        rw [hzero, List.get?_cons_zero]
        rfl
      · have hsucc : n - seen = (n - (seen + 1)) + 1 := by omega
        rw [show nthValueScan path n (r :: rs) seen
            = nthValueScan path n rs (seen + 1) from by
          simp [nthValueScan, hkey, hname, hn]]
        rw [hsucc, List.get?_cons_succ]
        exact ih (seen + 1) (by omega)

theorem nthSubkeyScan_eq (path : List Nat) (n : Nat) :
    ∀ (recs : List Record) (seen : Nat), seen ≤ n →
    nthSubkeyScan path n recs seen =
      ((recs.filter (subkeyRecB path)).get? (n - seen)).map Record.key := by
  intro recs
  induction recs with
  | nil => intro seen _; rfl
  | cons r rs ih =>
    intro seen hseen
    cases hnm : r.name with
    | some s =>
      rw [show nthSubkeyScan path n (r :: rs) seen = nthSubkeyScan path n rs seen from by
        simp [nthSubkeyScan, hnm]]
      rw [List.filter_cons_of_neg (by simp [subkeyRecB, hnm])]
      exact ih seen hseen
    | none =>
      by_cases hc : ¬r.key = path ∧ (r.key.drop (path.length + 1)).contains 92 = false
      · have hmem : ¬92 ∈ r.key.drop (path.length + 1) := by simpa using hc.2
        have hpred : subkeyRecB path r = true := by
          simp [subkeyRecB, hnm, hc.1, hmem]
        rw [List.filter_cons_of_pos hpred]
        have hstep : nthSubkeyScan path n (r :: rs) seen
            = if n < seen + 1 then some r.key else nthSubkeyScan path n rs (seen + 1) := by
          simp only [nthSubkeyScan, hnm]
          rw [if_pos hc]
        by_cases hn : n < seen + 1
        · have hzero : n - seen = 0 := by omega
          rw [hstep, if_pos hn, hzero, List.get?_cons_zero]
          rfl
        · have hsucc : n - seen = (n - (seen + 1)) + 1 := by omega
          rw [hstep, if_neg hn, hsucc, List.get?_cons_succ]
          exact ih (seen + 1) (by omega)
      · have hpred : subkeyRecB path r = false := by
          rcases not_and_or.mp hc with h | h
          · have hk : r.key = path := not_not.mp h
            simp [subkeyRecB, hk]
          · have hb : (r.key.drop (path.length + 1)).contains 92 = true := by
              revert h
              cases (r.key.drop (path.length + 1)).contains 92 <;> simp
            have hmem : 92 ∈ r.key.drop (path.length + 1) := by simpa using hb
            simp [subkeyRecB, hnm, hmem]
        rw [show nthSubkeyScan path n (r :: rs) seen = nthSubkeyScan path n rs seen from by
          simp only [nthSubkeyScan, hnm]
          rw [if_neg hc]]
        rw [List.filter_cons_of_neg (by simp [hpred])]
        exact ih seen hseen

theorem isPrefixOf_append_singleton_self (path : List Nat) (c : Nat) :
    (path ++ [c]).isPrefixOf path = false := by
  cases h : (path ++ [c]).isPrefixOf path with
  | false => rfl
  | true =>
    exfalso
    have hp := (List.isPrefixOf_iff_prefix.mp h).length_le
    simp at hp

theorem subkeyRecB_eq_direct (path : List Nat) (r : Record)
    (hsub : r.key = path ∨ (path ++ [92]).isPrefixOf r.key = true) :
    subkeyRecB path r = (r.name.isNone && isDirectChildB path r.key) := by
  cases hnm : r.name with
  | some s => simp [subkeyRecB, isDirectChildB, hnm]
  | none =>
    simp only [subkeyRecB, isDirectChildB, hnm, Option.isNone_none, Bool.true_and]
    rcases hsub with h | h
    · rw [h]
      simp [isPrefixOf_append_singleton_self]
    · have hlen : path.length + 1 ≤ r.key.length := by
        have := (List.isPrefixOf_iff_prefix.mp h).length_le
        simpa using this
      have hne : ¬r.key = path := by
        intro he
        rw [he] at hlen
        omega
      simp [h, hne]

/-! ## Claim C2: nth_value enumeration -/

/-- C2 (amended): `nth_value(n)` enumerates, in export-dump order, the
records whose key equals the key's path and whose name is truthy — not
`None` and not the empty string, so the unnamed/default value (parsed from
an `@=` line as name `""`) is skipped — returning the n-th such record
(zero-indexed) as a `(name, data, type)` tuple and failing when fewer than
`n + 1` such records exist. -/
theorem c2_nth_value (path : List Nat) (n : Nat) (recs : List Record) :
    nthValue path n recs =
      ((recs.filter (valueRecB path)).get? n).map
        (fun r => (r.name.getD [], r.data, r.type)) := by
  have h := nthValueScan_eq path n recs 0 (by omega)
  simpa using h

/-- C2 counterexample: one record with a non-`None` name (the default
value, name `""`) sits on the key, yet `nth_value(0)` fails — the claim
says it would be returned. -/
theorem c2_counterexample :
    (([⟨[97], some [], some (RegData.str [104]), some 1⟩] : List Record).filter
        (fun r => decide (r.key = [97]) && r.name.isSome)).length = 1 ∧
    nthValue [97] 0 [⟨[97], some [], some (RegData.str [104]), some 1⟩] = none := by
  constructor
  · decide
  · decide

/-! ## Claim C8: nth_subkey enumeration -/

/-- C8: over export records of the key's subtree (every record key is the
path itself or extends it past a backslash), `nth_subkey(n)` returns the
n-th key-header record whose key is a direct child of the path — exactly
one segment deeper — in dump order, zero-indexed, failing when fewer than
`n + 1` direct children exist. -/
theorem c8_nth_subkey (path : List Nat) (n : Nat) (recs : List Record)
    (hsub : ∀ r ∈ recs, r.key = path ∨ (path ++ [92]).isPrefixOf r.key = true) :
    nthSubkey path n recs =
      ((recs.filter (fun r => r.name.isNone && isDirectChildB path r.key)).get? n).map
        Record.key := by
  have h := nthSubkeyScan_eq path n recs 0 (by omega)
  rw [List.filter_congr (fun r hr => subkeyRecB_eq_direct path r (hsub r hr))] at h
  simpa using h

/-- C8 witness: the enumeration theorem applied to a concrete dump of the
subtree of `"A"` holding children `"A\B"` (with a grandchild) and `"A\D"`;
the second direct child (index 1) is `"A\D"`. -/
theorem c8_witness :
    nthSubkey [65] 1
      [⟨[65], none, none, none⟩, ⟨[65, 92, 66], none, none, none⟩,
        ⟨[65, 92, 66, 92, 67], none, none, none⟩, ⟨[65, 92, 68], none, none, none⟩]
      = some [65, 92, 68] := by
  rw [c8_nth_subkey [65] 1 _ (by decide)]
  decide

/-! ## Key handles (`PyHKEY`)

A handle is its path plus the `_valid` flag `__init__` sets to true and
`Close` sets to false.  The wineprefix field is constant across one
`WineReg` instance and is dropped.  The process-wide handle table
`_HANDLES` keyed by `id(self)` is modelled as an append-only list indexed
by position (weak-reference eviction is garbage-collector behaviour and is
not modelled; the claims below do not touch it). -/

structure HKey where
  path : List Nat
  valid : Bool
deriving DecidableEq

/-- Python `s.strip("\\")`: remove every leading and trailing occurrence
of the character `a`. -/
def pyStrip (a : Nat) (s : List Nat) : List Nat :=
  ((s.dropWhile (fun c => decide (c = a))).reverse.dropWhile
    (fun c => decide (c = a))).reverse

/-- Source `PyHKEY.join` on the handle value: strip backslashes from the
subkey; an empty result returns the handle itself, otherwise a fresh valid
handle on the concatenated path. -/
def joinK (k : HKey) (sub : List Nat) : HKey :=
  if pyStrip 92 sub = [] then k
  else ⟨k.path ++ 92 :: pyStrip 92 sub, true⟩

/-- Path produced by `join`, on paths alone. -/
def joinPath (p sub : List Nat) : List Nat :=
  if pyStrip 92 sub = [] then p else p ++ 92 :: pyStrip 92 sub

/-- Source `PyHKEY.__nonzero__`: `not self._valid`. -/
def pyNonzero (k : HKey) : Bool := !k.valid

/-- Source `PyHKEY.__init__`: a fresh handle is valid. -/
def mkHKey (path : List Nat) : HKey := ⟨path, true⟩

/-- Source `PyHKEY.Close`: sets `_valid` to false; nothing ever sets it
back. -/
def closeK (k : HKey) : HKey := ⟨k.path, false⟩

/-! ## The registry store and the external tool

Modelled from the spec: the external regedit collaborator is not part of
the repository.  The store is the flat record list a full export would
produce; `regedit /E file path` exports the records of the subtree rooted
at `path` (in store order) and exits non-zero when the key does not
exist, which `_run_regedit` surfaces as a raised `WindowsError`; an import
applies REGEDIT4 create/delete/set fragments.  Value records are kept in
decoded form, as a subsequent `_regread` would parse them. -/

def keyExists (store : List Record) (path : List Nat) : Bool :=
  store.any (fun r => r.name.isNone && decide (r.key = path))

/-- Record belongs to the subtree of `path`. -/
def subtreePred (path : List Nat) (r : Record) : Bool :=
  decide (r.key = path) || (path ++ [92]).isPrefixOf r.key

/-- Modelled from the spec: subtree export, failing (non-zero exit, hence
`WindowsError`) exactly when the key is absent. -/
def exportRecords (store : List Record) (path : List Nat) : Except Unit (List Record) :=
  if keyExists store path then Except.ok (store.filter (subtreePred path))
  else Except.error ()

/-- Source `check()`: `for ln in self._regread(path): break` — a failed
export propagates, any successful export (zero records included) returns
normally. -/
def checkOp (res : Except Unit (List Record)) : Except Unit Unit :=
  match res with
  | Except.error e => Except.error e
  | Except.ok _ => Except.ok ()

/-- `check()` against the modelled store. -/
def checkStore (store : List Record) (path : List Nat) : Except Unit Unit :=
  checkOp (exportRecords store path)

/-- REGEDIT4 fragments the source emits through `_regedit`: `[path]`,
`[-path]`, a value assignment, and `"name"=-`. -/
inductive ImportCmd where
  | createKey (path : List Nat)
  | deleteKey (path : List Nat)
  | setValueRec (r : Record)
  | deleteValue (path name : List Nat)
deriving DecidableEq

/-- Modelled from the spec: effect of one REGEDIT4 import command on the
store.  `[path]` creates the key if absent (idempotent), `[-path]` removes
the whole subtree, a value assignment upserts the value record,
`"name"=-` removes it. -/
def applyCmd (store : List Record) : ImportCmd → List Record
  | ImportCmd.createKey p =>
    if keyExists store p then store else store ++ [⟨p, none, none, none⟩]
  | ImportCmd.deleteKey p => store.filter (fun r => !subtreePred p r)
  | ImportCmd.setValueRec r =>
    (store.filter (fun x => !(decide (x.key = r.key) && decide (x.name = r.name)))) ++ [r]
  | ImportCmd.deleteValue p nm =>
    store.filter (fun x => !(decide (x.key = p) && decide (x.name = some nm)))

def applyCmds (store : List Record) (cmds : List ImportCmd) : List Record :=
  cmds.foldl applyCmd store

/-- Direct child of `p` present in the store as a key header. -/
def hasDirectChild (store : List Record) (p : List Nat) : Bool :=
  store.any (fun r => r.name.isNone && isDirectChildB p r.key)

/-! ## System state and the `WineReg` operations

One `WineReg` instance: the handle table plus the registry store.  Each
public operation resolves its key argument through `PyHKEY.lookup` first,
which raises `WindowsError` for a closed (or unknown) handle; every
operation returns the resulting state alongside its `Except` outcome, so
that state mutated before an exception is kept, as in Python. -/

structure SysState where
  handles : List HKey
  store : List Record
deriving DecidableEq

/-- Source `PyHKEY.lookup`: resolve a handle identifier; an unknown
identifier raises (`KeyError`), an invalidated handle raises
`WindowsError`. -/
def lookup (s : SysState) (hid : Nat) : Except Unit HKey :=
  match s.handles.get? hid with
  | none => Except.error ()
  | some k => if k.valid then Except.ok k else Except.error ()

/-- State-level `join`: an empty stripped subkey returns the same handle
identifier (the `return self` branch); otherwise a fresh valid handle is
registered and its identifier returned. -/
def joinNew (s : SysState) (hid : Nat) (k : HKey) (sub : List Nat) : Nat × SysState :=
  if pyStrip 92 sub = [] then (hid, s)
  else (s.handles.length,
    ⟨s.handles ++ [⟨k.path ++ 92 :: pyStrip 92 sub, true⟩], s.store⟩)

/-- Source `WineReg.CloseKey`: `PyHKEY.lookup(hkey).Close()`. -/
def closeKeyOp (s : SysState) (hid : Nat) : Except Unit Unit × SysState :=
  match lookup s hid with
  | Except.error e => (Except.error e, s)
  | Except.ok k => (Except.ok (), ⟨s.handles.set hid ⟨k.path, false⟩, s.store⟩)

/-- Source `WineReg.CreateKey`: lookup, join, `create()` (import
`[path]`), return the joined handle. -/
def createKeyOp (s : SysState) (hid : Nat) (sub : List Nat) : Except Unit Nat × SysState :=
  match lookup s hid with
  | Except.error e => (Except.error e, s)
  | Except.ok k =>
    let ns := joinNew s hid k sub
    (Except.ok ns.1,
      ⟨ns.2.handles, applyCmd ns.2.store (ImportCmd.createKey (joinPath k.path sub))⟩)

/-- Source `WineReg.DeleteKey`: lookup, join, `check()`, then try
`nth_subkey(0)`; if it raises the key is childless and `delete()` (import
`[-path]`) runs, otherwise `WindowsError` is raised.  The two exports
`check` and `nth_subkey` perform read the same store, so one export result
serves both. -/
def deleteKeyOp (s : SysState) (hid : Nat) (sub : List Nat) : Except Unit Unit × SysState :=
  match lookup s hid with
  | Except.error e => (Except.error e, s)
  | Except.ok k =>
    let ns := joinNew s hid k sub
    match checkStore ns.2.store (joinPath k.path sub) with
    | Except.error e => (Except.error e, ns.2)
    | Except.ok _ =>
      match exportRecords ns.2.store (joinPath k.path sub) with
      | Except.error _ =>
        (Except.ok (), ⟨ns.2.handles,
          applyCmd ns.2.store (ImportCmd.deleteKey (joinPath k.path sub))⟩)
      | Except.ok recs =>
        match nthSubkey (joinPath k.path sub) 0 recs with
        | some _ => (Except.error (), ns.2)
        | none =>
          (Except.ok (), ⟨ns.2.handles,
            applyCmd ns.2.store (ImportCmd.deleteKey (joinPath k.path sub))⟩)

/-- Source `WineReg.DeleteValue`: lookup then `delete_value` (import
`[path]` followed by `"name"=-`). -/
def deleteValueOp (s : SysState) (hid : Nat) (nm : List Nat) : Except Unit Unit × SysState :=
  match lookup s hid with
  | Except.error e => (Except.error e, s)
  | Except.ok k =>
    (Except.ok (), ⟨s.handles,
      applyCmds s.store [ImportCmd.createKey k.path, ImportCmd.deleteValue k.path nm]⟩)

/-- Source `WineReg.EnumKey`: lookup, `nth_subkey(index)`, last path
segment of the resulting key. -/
def enumKeyOp (s : SysState) (hid : Nat) (index : Nat) : Except Unit (List Nat) × SysState :=
  match lookup s hid with
  | Except.error e => (Except.error e, s)
  | Except.ok k =>
    match exportRecords s.store k.path with
    | Except.error e => (Except.error e, s)
    | Except.ok recs =>
      match nthSubkey k.path index recs with
      | none => (Except.error (), s)
      | some key => (Except.ok (lastSegment key), s)

/-- Source `WineReg.EnumValue`: lookup then `nth_value(index)`. -/
def enumValueOp (s : SysState) (hid : Nat) (index : Nat) :
    Except Unit (List Nat × Option RegData × Option Nat) × SysState :=
  match lookup s hid with
  | Except.error e => (Except.error e, s)
  | Except.ok k =>
    match exportRecords s.store k.path with
    | Except.error e => (Except.error e, s)
    | Except.ok recs =>
      match nthValue k.path index recs with
      | none => (Except.error (), s)
      | some v => (Except.ok v, s)

/-- Source `WineReg.OpenKey`: lookup, join, `check()`, return the joined
handle (`res` and `sam` are accepted and unused, as in the source). -/
def openKeyOp (s : SysState) (hid : Nat) (sub : List Nat) (res sam : Nat) :
    Except Unit Nat × SysState :=
  match lookup s hid with
  | Except.error e => (Except.error e, s)
  | Except.ok k =>
    let ns := joinNew s hid k sub
    match checkStore ns.2.store (joinPath k.path sub) with
    | Except.error e => (Except.error e, ns.2)
    | Except.ok _ => (Except.ok ns.1, ns.2)

/-- Source `WineReg.OpenKeyEx`: just calls `OpenKey`. -/
def openKeyExOp (s : SysState) (hid : Nat) (sub : List Nat) (res sam : Nat) :
    Except Unit Nat × SysState :=
  openKeyOp s hid sub res sam

/-- Source `WineReg.QueryInfoKey`: lookup then `get_info()`. -/
def queryInfoKeyOp (s : SysState) (hid : Nat) : Except Unit (Nat × Nat × Nat) × SysState :=
  match lookup s hid with
  | Except.error e => (Except.error e, s)
  | Except.ok k =>
    match exportRecords s.store k.path with
    | Except.error e => (Except.error e, s)
    | Except.ok recs => (Except.ok (getInfoCounts k.path recs), s)

/-- Source `WineReg.QueryValue`: lookup, join, `get_value("")[0]`. -/
def queryValueOp (s : SysState) (hid : Nat) (sub : List Nat) :
    Except Unit (Option RegData) × SysState :=
  match lookup s hid with
  | Except.error e => (Except.error e, s)
  | Except.ok k =>
    let ns := joinNew s hid k sub
    match exportRecords ns.2.store (joinPath k.path sub) with
    | Except.error e => (Except.error e, ns.2)
    | Except.ok recs =>
      match getValue (joinPath k.path sub) [] recs with
      | none => (Except.error (), ns.2)
      | some dt => (Except.ok dt.1, ns.2)

/-- Source `WineReg.QueryValueEx`: lookup then `get_value(value_name)`. -/
def queryValueExOp (s : SysState) (hid : Nat) (nm : List Nat) :
    Except Unit (Option RegData × Option Nat) × SysState :=
  match lookup s hid with
  | Except.error e => (Except.error e, s)
  | Except.ok k =>
    match exportRecords s.store k.path with
    | Except.error e => (Except.error e, s)
    | Except.ok recs =>
      match getValue k.path nm recs with
      | none => (Except.error (), s)
      | some dt => (Except.ok dt, s)

/-- Source `WineReg.SaveKey`: lookup then `dump(file_name)`, a plain
subtree export whose failure propagates. -/
def saveKeyOp (s : SysState) (hid : Nat) : Except Unit Unit × SysState :=
  match lookup s hid with
  | Except.error e => (Except.error e, s)
  | Except.ok k =>
    match exportRecords s.store k.path with
    | Except.error e => (Except.error e, s)
    | Except.ok _ => (Except.ok (), s)

/-- Source `PyHKEY.set_value`: encode data and type through the codec
(`ValueError` from either propagates), then import `[path]` and the value
assignment; the stored record carries the decoded form a later export
parses back. -/
def setValueBody (store : List Record) (p nm : List Nat) (d : RegData) (t : Nat) :
    Except Unit (List Record) :=
  match mapData d t, mapType t with
  | some payload, some tp =>
    Except.ok (applyCmds store
      [ImportCmd.createKey p,
        ImportCmd.setValueRec
          ⟨p, some nm, (unmapType tp).bind (fun t2 => unmapData payload t2), unmapType tp⟩])
  | _, _ => Except.error ()

/-- Source `WineReg.SetValue`: lookup, join, `set_value("", value, type)`. -/
def setValueOp (s : SysState) (hid : Nat) (sub : List Nat) (t : Nat) (d : RegData) :
    Except Unit Unit × SysState :=
  match lookup s hid with
  | Except.error e => (Except.error e, s)
  | Except.ok k =>
    let ns := joinNew s hid k sub
    match setValueBody ns.2.store (joinPath k.path sub) [] d t with
    | Except.error e => (Except.error e, ns.2)
    | Except.ok st => (Except.ok (), ⟨ns.2.handles, st⟩)

/-- Source `WineReg.SetValueEx`: lookup then
`set_value(value_name, value, type)`. -/
def setValueExOp (s : SysState) (hid : Nat) (nm : List Nat) (reserved t : Nat)
    (d : RegData) : Except Unit Unit × SysState :=
  match lookup s hid with
  | Except.error e => (Except.error e, s)
  | Except.ok k =>
    match setValueBody s.store k.path nm d t with
    | Except.error e => (Except.error e, s)
    | Except.ok st => (Except.ok (), ⟨s.handles, st⟩)

/-- Source `WineReg.LoadKey`: lookup, join (which registers a handle),
then `load(file_name)` — a plain import of the file's commands; the joined
path itself is not used by `load`. -/
def loadKeyOp (s : SysState) (hid : Nat) (sub : List Nat) (file : List ImportCmd) :
    Except Unit Unit × SysState :=
  match lookup s hid with
  | Except.error e => (Except.error e, s)
  | Except.ok k =>
    let ns := joinNew s hid k sub
    (Except.ok (), ⟨ns.2.handles, applyCmds ns.2.store file⟩)

/-! ## State helper lemmas -/

theorem joinNew_store (s : SysState) (hid : Nat) (k : HKey) (sub : List Nat) :
    (joinNew s hid k sub).2.store = s.store := by
  unfold joinNew
  split <;> rfl

/-- Handle `i` is present and closed. -/
def closedAt (s : SysState) (i : Nat) : Prop :=
  ∃ k, s.handles.get? i = some k ∧ k.valid = false

theorem lookup_closed {s : SysState} {hid : Nat} (h : closedAt s hid) :
    lookup s hid = Except.error () := by
  obtain ⟨k, hk, hv⟩ := h
  rw [List.get?_eq_getElem?] at hk
  simp [lookup, hk, hv]

theorem get?_append_left {α : Type} : ∀ (l₁ l₂ : List α) (i : Nat) (a : α),
    l₁.get? i = some a → (l₁ ++ l₂).get? i = some a := by
  intro l₁
  induction l₁ with
  | nil => intro l₂ i a h; simp at h
  | cons x xs ih =>
    intro l₂ i a h
    cases i with
    | zero => simpa using h
    | succ j =>
      rw [List.cons_append, List.get?_cons_succ]
      exact ih l₂ j a (by simpa using h)

theorem get?_set_self {α : Type} : ∀ (l : List α) (i : Nat) (a b : α),
    l.get? i = some a → (l.set i b).get? i = some b := by
  intro l
  induction l with
  | nil => intro i a b h; simp at h
  | cons x xs ih =>
    intro i a b h
    cases i with
    | zero => rfl
    | succ j =>
      show (x :: xs.set j b).get? (j + 1) = some b
      rw [List.get?_cons_succ]
      exact ih j a b (by simpa using h)

theorem get?_set_other {α : Type} : ∀ (l : List α) (i j : Nat) (b : α), ¬i = j →
    (l.set i b).get? j = l.get? j := by
  intro l
  induction l with
  | nil => intro i j b _; rfl
  | cons x xs ih =>
    intro i j b hij
    cases i with
    | zero =>
      cases j with
      | zero => exact absurd rfl hij
      | succ j2 => rfl
    | succ i2 =>
      cases j with
      | zero => rfl
      | succ j2 =>
        show (x :: xs.set i2 b).get? (j2 + 1) = (x :: xs).get? (j2 + 1)
        rw [List.get?_cons_succ, List.get?_cons_succ]
        exact ih i2 j2 b (fun he => hij (by rw [he]))

theorem closedAt_handles_store {s : SysState} {i : Nat} (st : List Record)
    (h : closedAt s i) : closedAt ⟨s.handles, st⟩ i := h

theorem closedAt_append {s : SysState} {i : Nat} (ks : List HKey) (st : List Record)
    (h : closedAt s i) : closedAt ⟨s.handles ++ ks, st⟩ i := by
  obtain ⟨k, hk, hv⟩ := h
  exact ⟨k, get?_append_left s.handles ks i k hk, hv⟩

theorem closedAt_joinNew {s : SysState} {i : Nat} (hid : Nat) (k : HKey) (sub : List Nat)
    (h : closedAt s i) : closedAt (joinNew s hid k sub).2 i := by
  unfold joinNew
  split
  · exact h
  · exact closedAt_append _ _ h

theorem closedAt_set_invalid {s : SysState} {i : Nat} (hid : Nat) (p : List Nat)
    (st : List Record) (h : closedAt s i) :
    closedAt ⟨s.handles.set hid ⟨p, false⟩, st⟩ i := by
  obtain ⟨k, hk, hv⟩ := h
  by_cases hij : hid = i
  · subst hij
    exact ⟨⟨p, false⟩, get?_set_self s.handles hid k ⟨p, false⟩ hk, rfl⟩
  · exact ⟨k, by rw [get?_set_other s.handles hid i ⟨p, false⟩ hij]; exact hk, hv⟩

/-! ## Claim C3: check -/

/-- C3 (amended): `check()` succeeds exactly when the export invocation
itself succeeds — in the modelled store semantics, exactly when the key
exists; the record count is never examined: a successful export with zero
parsed records still returns success, rather than the `KeyNotFoundError`
the claim describes. -/
theorem c3_check (store : List Record) (path : List Nat) :
    (checkStore store path = Except.ok () ↔ keyExists store path = true) ∧
    (∀ recs : List Record, checkOp (Except.ok recs) = Except.ok ()) := by
  constructor
  · unfold checkStore exportRecords
    cases h : keyExists store path with
    | true => simp [h, checkOp]
    | false => simp [h, checkOp]
  · intro recs
    rfl

/-- C3 counterexample: an export that succeeds while producing zero
parsed records makes `check()` succeed; the claim says a zero-record
export fails with `KeyNotFoundError`. -/
theorem c3_counterexample : checkOp (Except.ok ([] : List Record)) = Except.ok () := rfl

/-! ## Strip lemmas for join -/

theorem dropWhile_head_not {α : Type} (p : α → Bool) :
    ∀ (l : List α) (c : α), (l.dropWhile p).head? = some c → p c = false := by
  intro l
  induction l with
  | nil => intro c h; simp [List.dropWhile] at h
  | cons x xs ih =>
    intro c h
    by_cases hp : p x = true
    · rw [List.dropWhile_cons_of_pos hp] at h
      exact ih c h
    · rw [List.dropWhile_cons_of_neg hp] at h
      simp only [List.head?_cons, Option.some.injEq] at h
      subst h
      simpa using hp

theorem dropWhile_getLast {α : Type} (p : α → Bool) (l : List α)
    (h : l.dropWhile p ≠ []) : (l.dropWhile p).getLast? = l.getLast? := by
  conv_rhs => rw [← List.takeWhile_append_dropWhile p l]
  rw [List.getLast?_append_of_ne_nil _ h]

/-! ## Claim C7: join -/

/-- C7: `join` strips every leading and trailing backslash from the
subkey — the subkey decomposes as leading backslashes, the stripped core
(whose first and last characters are not backslashes), and trailing
backslashes; an empty stripped subkey returns the very same handle; a
nonempty one yields the old path, one backslash, then the stripped
subkey — so a path with no trailing backslash never acquires one. -/
theorem c7_join (k : HKey) (sub : List Nat) :
    (pyStrip 92 sub = [] → joinK k sub = k) ∧
    (pyStrip 92 sub ≠ [] →
      (joinK k sub).path = k.path ++ 92 :: pyStrip 92 sub ∧ (joinK k sub).valid = true) ∧
    sub = List.replicate (sub.takeWhile (fun c => decide (c = 92))).length 92
        ++ pyStrip 92 sub
        ++ List.replicate
            ((sub.dropWhile (fun c => decide (c = 92))).reverse.takeWhile
              (fun c => decide (c = 92))).length 92 ∧
    (∀ c, (pyStrip 92 sub).head? = some c → ¬c = 92) ∧
    (∀ c, (pyStrip 92 sub).getLast? = some c → ¬c = 92) ∧
    (¬k.path.getLast? = some 92 → ¬(joinK k sub).path.getLast? = some 92) := by
  have hhead : ∀ c, (pyStrip 92 sub).head? = some c → ¬c = 92 := by
    intro c hc
    unfold pyStrip at hc
    rw [List.head?_reverse] at hc
    have hne : (sub.dropWhile (fun c => decide (c = 92))).reverse.dropWhile
        (fun c => decide (c = 92)) ≠ [] := by
      intro he
      rw [he] at hc
      simp at hc
    rw [dropWhile_getLast _ _ hne, List.getLast?_reverse] at hc
    have := dropWhile_head_not (fun c => decide (c = 92)) sub c hc
    simpa using this
  have hlast : ∀ c, (pyStrip 92 sub).getLast? = some c → ¬c = 92 := by
    intro c hc
    unfold pyStrip at hc
    rw [List.getLast?_reverse] at hc
    have := dropWhile_head_not (fun c => decide (c = 92))
      (sub.dropWhile (fun c => decide (c = 92))).reverse c hc
    simpa using this
  refine ⟨?_, ?_, ?_, hhead, hlast, ?_⟩
  · intro h
    unfold joinK
    rw [if_pos h]
  · intro h
    unfold joinK
    rw [if_neg h]
    exact ⟨rfl, rfl⟩
  · conv_lhs => rw [← List.takeWhile_append_dropWhile (fun c => decide (c = 92)) sub]
    rw [List.append_assoc]
    congr 1
    · exact List.eq_replicate_of_mem (fun b hb => by
        have := List.mem_takeWhile_imp hb
        simpa using this)
    · calc sub.dropWhile (fun c => decide (c = 92))
          = ((sub.dropWhile (fun c => decide (c = 92))).reverse).reverse := by
            rw [List.reverse_reverse]
        _ = ((sub.dropWhile (fun c => decide (c = 92))).reverse.takeWhile
                (fun c => decide (c = 92))
              ++ (sub.dropWhile (fun c => decide (c = 92))).reverse.dropWhile
                (fun c => decide (c = 92))).reverse := by
            rw [List.takeWhile_append_dropWhile]
        _ = pyStrip 92 sub
            ++ ((sub.dropWhile (fun c => decide (c = 92))).reverse.takeWhile
              (fun c => decide (c = 92))).reverse := by
            rw [List.reverse_append]
            rfl
        _ = pyStrip 92 sub
            ++ List.replicate
              ((sub.dropWhile (fun c => decide (c = 92))).reverse.takeWhile
                (fun c => decide (c = 92))).length 92 := by
            congr 1
            have h3 := List.eq_replicate_of_mem
              (l := (sub.dropWhile (fun c => decide (c = 92))).reverse.takeWhile
                (fun c => decide (c = 92)))
              (a := 92)
              (fun b hb => by
                have := List.mem_takeWhile_imp hb
                simpa using this)
            rw [h3, List.reverse_replicate, List.length_replicate]
  · intro hk
    by_cases h : pyStrip 92 sub = []
    · unfold joinK
      rw [if_pos h]
      exact hk
    · unfold joinK
      rw [if_neg h]
      intro hcon
      have h1 : (k.path ++ 92 :: pyStrip 92 sub).getLast?
          = (92 :: pyStrip 92 sub).getLast? :=
        List.getLast?_append_of_ne_nil _ (by simp)
    -- within this branch the path is the appended one
      have h2 : (92 :: pyStrip 92 sub).getLast? = (pyStrip 92 sub).getLast? := by
        rw [show (92 :: pyStrip 92 sub) = [92] ++ pyStrip 92 sub from rfl,
          List.getLast?_append_of_ne_nil _ h]
      rw [show (HKey.mk (k.path ++ 92 :: pyStrip 92 sub) true).path
          = k.path ++ 92 :: pyStrip 92 sub from rfl, h1, h2] at hcon
      exact hlast 92 hcon rfl

/-! ## Claim C10: handle truth value -/

/-- C10: a handle's truth value under `__nonzero__` is the negation of
its validity — false for a freshly created (open) handle, true once
`Close()` has run, both on the handle value and through `CloseKey` on the
state. -/
theorem c10_nonzero (p : List Nat) (k : HKey) (s : SysState) (hid : Nat)
    (h : (closeKeyOp s hid).1 = Except.ok ()) :
    pyNonzero (mkHKey p) = false ∧ pyNonzero (closeK k) = true ∧
    ∃ k2, (closeKeyOp s hid).2.handles.get? hid = some k2 ∧ pyNonzero k2 = true := by
  refine ⟨rfl, rfl, ?_⟩
  unfold closeKeyOp at h ⊢
  cases hl : lookup s hid with
  | error e =>
    rw [hl] at h
    simp at h
  | ok k0 =>
    have hg : ∃ k1, s.handles.get? hid = some k1 := by
      unfold lookup at hl
      cases hget : s.handles.get? hid with
      | none => rw [hget] at hl; simp at hl
      | some k1 => exact ⟨k1, rfl⟩
    obtain ⟨k1, hk1⟩ := hg
    exact ⟨⟨k0.path, false⟩, get?_set_self s.handles hid k1 ⟨k0.path, false⟩ hk1, rfl⟩

/-! ## Claim C6: DeleteKey -/

/-- C6: `DeleteKey` on a joined key with at least one subkey fails and
leaves the registry store unchanged (no delete command reaches the
store); on an existing childless key it deletes the key, so a subsequent
`check()` on that key fails. -/
theorem c6_DeleteKey (s : SysState) (hid : Nat) (sub : List Nat) (k : HKey)
    (hk : lookup s hid = Except.ok k) :
    (hasDirectChild s.store (joinPath k.path sub) = true →
      (deleteKeyOp s hid sub).1 = Except.error () ∧
      (deleteKeyOp s hid sub).2.store = s.store) ∧
    (keyExists s.store (joinPath k.path sub) = true →
      hasDirectChild s.store (joinPath k.path sub) = false →
      (deleteKeyOp s hid sub).1 = Except.ok () ∧
      checkStore (deleteKeyOp s hid sub).2.store (joinPath k.path sub)
        = Except.error ()) := by
  cases hke : keyExists s.store (joinPath k.path sub) with
  | false =>
    have hcheck : checkStore s.store (joinPath k.path sub) = Except.error () := by
      simp [checkStore, checkOp, exportRecords, hke]
    have hDel : deleteKeyOp s hid sub
        = (Except.error (), (joinNew s hid k sub).2) := by
      simp only [deleteKeyOp, hk, joinNew_store, hcheck]
    constructor
    · intro _
      rw [hDel]
      exact ⟨rfl, joinNew_store s hid k sub⟩
    · intro hke2 _
      exact Bool.noConfusion hke2
  | true =>
    have hexp : exportRecords s.store (joinPath k.path sub)
        = Except.ok (s.store.filter (subtreePred (joinPath k.path sub))) := by
      simp [exportRecords, hke]
    have hcheck : checkStore s.store (joinPath k.path sub) = Except.ok () := by
      simp [checkStore, checkOp, hexp]
    have hsubrec : ∀ r ∈ s.store.filter (subtreePred (joinPath k.path sub)),
        r.key = joinPath k.path sub
          ∨ (joinPath k.path sub ++ [92]).isPrefixOf r.key = true := by
      intro r hr
      have h2 := (List.mem_filter.mp hr).2
      simp only [subtreePred, Bool.or_eq_true, decide_eq_true_eq] at h2
      exact h2
    have hFF : (s.store.filter (subtreePred (joinPath k.path sub))).filter
          (fun r => r.name.isNone && isDirectChildB (joinPath k.path sub) r.key)
        = s.store.filter
          (fun r => r.name.isNone && isDirectChildB (joinPath k.path sub) r.key) := by
      rw [List.filter_filter]
      apply List.filter_congr
      intro r _
      by_cases hd : (r.name.isNone && isDirectChildB (joinPath k.path sub) r.key) = true
      · rw [hd]
        have hd' := hd
        simp only [Bool.and_eq_true] at hd'
        have hdir : isDirectChildB (joinPath k.path sub) r.key = true := hd'.2
        have hdir' := hdir
        simp only [isDirectChildB, Bool.and_eq_true] at hdir'
        have hpre : (joinPath k.path sub ++ [92]).isPrefixOf r.key = true := hdir'.1
        simp [subtreePred, hpre]
      · have hd2 : (r.name.isNone && isDirectChildB (joinPath k.path sub) r.key) = false := by
          revert hd
          cases (r.name.isNone && isDirectChildB (joinPath k.path sub) r.key) <;> simp
        rw [hd2]
        simp
    have heq : nthSubkey (joinPath k.path sub) 0
          (s.store.filter (subtreePred (joinPath k.path sub)))
        = (((s.store.filter (subtreePred (joinPath k.path sub))).filter
            (fun r => r.name.isNone && isDirectChildB (joinPath k.path sub) r.key)).get?
              0).map Record.key := by
      have h0 := nthSubkeyScan_eq (joinPath k.path sub) 0
        (s.store.filter (subtreePred (joinPath k.path sub))) 0 (by omega)
      rw [List.filter_congr
        (fun r hr => subkeyRecB_eq_direct (joinPath k.path sub) r (hsubrec r hr))] at h0
      simpa [nthSubkey] using h0
    have hchild : hasDirectChild s.store (joinPath k.path sub) = true ↔
        s.store.filter
          (fun r => r.name.isNone && isDirectChildB (joinPath k.path sub) r.key) ≠ [] := by
      unfold hasDirectChild
      rw [List.any_eq_true]
      constructor
      · rintro ⟨r, hr, hpred⟩ hnil
        rw [List.filter_eq_nil_iff] at hnil
        exact hnil r hr (by simp [hpred])
      · intro hne
        cases hF : s.store.filter
            (fun r => r.name.isNone && isDirectChildB (joinPath k.path sub) r.key) with
        | nil => exact absurd hF hne
        | cons r rs =>
          have hrmem : r ∈ s.store.filter
              (fun r => r.name.isNone && isDirectChildB (joinPath k.path sub) r.key) := by
            rw [hF]
            simp
          have hm := List.mem_filter.mp hrmem
          exact ⟨r, hm.1, hm.2⟩
    cases hdc : hasDirectChild s.store (joinPath k.path sub) with
    | true =>
      have hne := hchild.mp hdc
      cases hF : s.store.filter
          (fun r => r.name.isNone && isDirectChildB (joinPath k.path sub) r.key) with
      | nil => exact absurd hF hne
      | cons r0 rs0 =>
        have hnth : nthSubkey (joinPath k.path sub) 0
            (s.store.filter (subtreePred (joinPath k.path sub))) = some r0.key := by
          rw [heq, hFF, hF]
          rfl
        have hDel : deleteKeyOp s hid sub
            = (Except.error (), (joinNew s hid k sub).2) := by
          simp only [deleteKeyOp, hk, joinNew_store, hcheck, hexp, hnth]
        constructor
        · intro _
          rw [hDel]
          exact ⟨rfl, joinNew_store s hid k sub⟩
        · intro _ hdc2
          exact Bool.noConfusion hdc2
    | false =>
      have hFnil : s.store.filter
          (fun r => r.name.isNone && isDirectChildB (joinPath k.path sub) r.key) = [] := by
        by_contra hne
        rw [hchild.mpr hne] at hdc
        exact Bool.noConfusion hdc
      have hnth : nthSubkey (joinPath k.path sub) 0
          (s.store.filter (subtreePred (joinPath k.path sub))) = none := by
        rw [heq, hFF, hFnil]
        rfl
      have hDel : deleteKeyOp s hid sub
          = (Except.ok (), ⟨(joinNew s hid k sub).2.handles,
              applyCmd s.store (ImportCmd.deleteKey (joinPath k.path sub))⟩) := by
        simp only [deleteKeyOp, hk, joinNew_store, hcheck, hexp, hnth]
      constructor
      · intro hdc2
        exact Bool.noConfusion hdc2
      · intro _ _
        refine ⟨by rw [hDel], ?_⟩
        have hkegone : keyExists
            (applyCmd s.store (ImportCmd.deleteKey (joinPath k.path sub)))
            (joinPath k.path sub) = false := by
          cases habs : keyExists
              (applyCmd s.store (ImportCmd.deleteKey (joinPath k.path sub)))
              (joinPath k.path sub) with
          | false => rfl
          | true =>
            exfalso
            rw [keyExists, List.any_eq_true] at habs
            obtain ⟨r, hr, hpred⟩ := habs
            have hmem := List.mem_filter.mp hr
            have hkeyp : r.key = joinPath k.path sub := by
              have h3 := hpred
              simp only [Bool.and_eq_true] at h3
              simpa using h3.2
            have hsubt : subtreePred (joinPath k.path sub) r = true := by
              simp [subtreePred, hkeyp]
            have h4 := hmem.2
            rw [hsubt] at h4
            simp at h4
        rw [hDel]
        simp [checkStore, checkOp, exportRecords, hkegone]

/-- Sample state for the C6 witness: one open handle on `"A"`, a store
holding keys `"A"` and `"A\B"`. -/
def s6 : SysState :=
  ⟨[⟨[65], true⟩], [⟨[65], none, none, none⟩, ⟨[65, 92, 66], none, none, none⟩]⟩

/-- C6 witness: deleting `"A"` (which has the subkey `"A\B"`) fails with
the store untouched; deleting the childless `"A\B"` succeeds and a
subsequent `check()` of it fails. -/
theorem c6_witness :
    ((deleteKeyOp s6 0 []).1 = Except.error () ∧ (deleteKeyOp s6 0 []).2.store = s6.store) ∧
    ((deleteKeyOp s6 0 [66]).1 = Except.ok () ∧
      checkStore (deleteKeyOp s6 0 [66]).2.store (joinPath [65] [66]) = Except.error ()) :=
  ⟨(c6_DeleteKey s6 0 [] ⟨[65], true⟩ rfl).1 (by rfl),
    (c6_DeleteKey s6 0 [66] ⟨[65], true⟩ rfl).2 (by rfl) (by rfl)⟩

/-! ## Claim C9: closed handles -/

theorem closedAt_handles_eq {i : Nat} {s1 s2 : SysState} (h : s2.handles = s1.handles)
    (hc : closedAt s1 i) : closedAt s2 i := by
  obtain ⟨k, hk, hv⟩ := hc
  exact ⟨k, by rw [h]; exact hk, hv⟩

/-- C9: a handle has exactly the states Open and Closed, Closed being
terminal.  Every public operation that resolves a handle — CloseKey,
CreateKey, DeleteKey, DeleteValue, EnumKey, EnumValue, OpenKey, OpenKeyEx,
QueryInfoKey, QueryValue, QueryValueEx, SaveKey, SetValue, SetValueEx,
LoadKey — fails (the `WindowsError` raised by `lookup`) with the state
unchanged when the handle passed to it is closed; and no operation, run on
any handle with any arguments, ever reopens a closed handle. -/
theorem c9_closed_handles (s : SysState) (hid i : Nat) (sub nm : List Nat)
    (idx res sam reserved t : Nat) (d : RegData) (file : List ImportCmd)
    (hclosed : closedAt s hid) :
    (closeKeyOp s hid = (Except.error (), s)) ∧
    (createKeyOp s hid sub = (Except.error (), s)) ∧
    (deleteKeyOp s hid sub = (Except.error (), s)) ∧
    (deleteValueOp s hid nm = (Except.error (), s)) ∧
    (enumKeyOp s hid idx = (Except.error (), s)) ∧
    (enumValueOp s hid idx = (Except.error (), s)) ∧
    (openKeyOp s hid sub res sam = (Except.error (), s)) ∧
    (openKeyExOp s hid sub res sam = (Except.error (), s)) ∧
    (queryInfoKeyOp s hid = (Except.error (), s)) ∧
    (queryValueOp s hid sub = (Except.error (), s)) ∧
    (queryValueExOp s hid nm = (Except.error (), s)) ∧
    (saveKeyOp s hid = (Except.error (), s)) ∧
    (setValueOp s hid sub t d = (Except.error (), s)) ∧
    (setValueExOp s hid nm reserved t d = (Except.error (), s)) ∧
    (loadKeyOp s hid sub file = (Except.error (), s)) ∧
    closedAt (closeKeyOp s i).2 hid ∧
    closedAt (createKeyOp s i sub).2 hid ∧
    closedAt (deleteKeyOp s i sub).2 hid ∧
    closedAt (deleteValueOp s i nm).2 hid ∧
    closedAt (enumKeyOp s i idx).2 hid ∧
    closedAt (enumValueOp s i idx).2 hid ∧
    closedAt (openKeyOp s i sub res sam).2 hid ∧
    closedAt (openKeyExOp s i sub res sam).2 hid ∧
    closedAt (queryInfoKeyOp s i).2 hid ∧
    closedAt (queryValueOp s i sub).2 hid ∧
    closedAt (queryValueExOp s i nm).2 hid ∧
    closedAt (saveKeyOp s i).2 hid ∧
    closedAt (setValueOp s i sub t d).2 hid ∧
    closedAt (setValueExOp s i nm reserved t d).2 hid ∧
    closedAt (loadKeyOp s i sub file).2 hid := by
  have hl := lookup_closed hclosed
  refine ⟨?_, ?_, ?_, ?_, ?_, ?_, ?_, ?_, ?_, ?_, ?_, ?_, ?_, ?_, ?_,
    ?_, ?_, ?_, ?_, ?_, ?_, ?_, ?_, ?_, ?_, ?_, ?_, ?_, ?_, ?_⟩
  · simp [closeKeyOp, hl]
  · simp [createKeyOp, hl]
  · simp [deleteKeyOp, hl]
  · simp [deleteValueOp, hl]
  · simp [enumKeyOp, hl]
  · simp [enumValueOp, hl]
  · simp [openKeyOp, hl]
  · simp [openKeyExOp, openKeyOp, hl]
  · simp [queryInfoKeyOp, hl]
  · simp [queryValueOp, hl]
  · simp [queryValueExOp, hl]
  · simp [saveKeyOp, hl]
  · simp [setValueOp, hl]
  · simp [setValueExOp, hl]
  · simp [loadKeyOp, hl]
  · cases hl2 : lookup s i with
    | error e => simpa [closeKeyOp, hl2] using hclosed
    | ok k2 =>
      simp only [closeKeyOp, hl2]
      exact closedAt_set_invalid i k2.path s.store hclosed
  · cases hl2 : lookup s i with
    | error e => simpa [createKeyOp, hl2] using hclosed
    | ok k2 =>
      simp only [createKeyOp, hl2]
      exact closedAt_handles_eq rfl (closedAt_joinNew i k2 sub hclosed)
  · cases hl2 : lookup s i with
    | error e => simpa [deleteKeyOp, hl2] using hclosed
    | ok k2 =>
      have hj := closedAt_joinNew (s := s) i k2 sub hclosed
      simp only [deleteKeyOp, hl2]
      split
      · exact closedAt_handles_eq rfl hj
      · split
        · exact closedAt_handles_eq rfl hj
        · split
          · exact closedAt_handles_eq rfl hj
          · exact closedAt_handles_eq rfl hj
  · cases hl2 : lookup s i with
    | error e => simpa [deleteValueOp, hl2] using hclosed
    | ok k2 =>
      simp only [deleteValueOp, hl2]
      exact closedAt_handles_eq rfl hclosed
  · cases hl2 : lookup s i with
    | error e => simpa [enumKeyOp, hl2] using hclosed
    | ok k2 =>
      simp only [enumKeyOp, hl2]
      split
      · exact hclosed
      · split
        · exact hclosed
        · exact hclosed
  · cases hl2 : lookup s i with
    | error e => simpa [enumValueOp, hl2] using hclosed
    | ok k2 =>
      simp only [enumValueOp, hl2]
      split
      · exact hclosed
      · split
        · exact hclosed
        · exact hclosed
  · cases hl2 : lookup s i with
    | error e => simpa [openKeyOp, hl2] using hclosed
    | ok k2 =>
      have hj := closedAt_joinNew (s := s) i k2 sub hclosed
      simp only [openKeyOp, hl2]
      split
      · exact closedAt_handles_eq rfl hj
      · exact closedAt_handles_eq rfl hj
  · cases hl2 : lookup s i with
    | error e => simpa [openKeyExOp, openKeyOp, hl2] using hclosed
    | ok k2 =>
      have hj := closedAt_joinNew (s := s) i k2 sub hclosed
      simp only [openKeyExOp, openKeyOp, hl2]
      split
      · exact closedAt_handles_eq rfl hj
      · exact closedAt_handles_eq rfl hj
  · cases hl2 : lookup s i with
    | error e => simpa [queryInfoKeyOp, hl2] using hclosed
    | ok k2 =>
      simp only [queryInfoKeyOp, hl2]
      split
      · exact hclosed
      · exact hclosed
  · cases hl2 : lookup s i with
    | error e => simpa [queryValueOp, hl2] using hclosed
    | ok k2 =>
      have hj := closedAt_joinNew (s := s) i k2 sub hclosed
      simp only [queryValueOp, hl2]
      split
      · exact closedAt_handles_eq rfl hj
      · split
        · exact closedAt_handles_eq rfl hj
        · exact closedAt_handles_eq rfl hj
  · cases hl2 : lookup s i with
    | error e => simpa [queryValueExOp, hl2] using hclosed
    | ok k2 =>
      simp only [queryValueExOp, hl2]
      split
      · exact hclosed
      · split
        · exact hclosed
        · exact hclosed
  · cases hl2 : lookup s i with
    | error e => simpa [saveKeyOp, hl2] using hclosed
    | ok k2 =>
      simp only [saveKeyOp, hl2]
      split
      · exact hclosed
      · exact hclosed
  · cases hl2 : lookup s i with
    | error e => simpa [setValueOp, hl2] using hclosed
    | ok k2 =>
      have hj := closedAt_joinNew (s := s) i k2 sub hclosed
      simp only [setValueOp, hl2]
      split
      · exact closedAt_handles_eq rfl hj
      · exact closedAt_handles_eq rfl hj
  · cases hl2 : lookup s i with
    | error e => simpa [setValueExOp, hl2] using hclosed
    | ok k2 =>
      simp only [setValueExOp, hl2]
      split
      · exact hclosed
      · exact closedAt_handles_eq rfl hclosed
  · cases hl2 : lookup s i with
    | error e => simpa [loadKeyOp, hl2] using hclosed
    | ok k2 =>
      simp only [loadKeyOp, hl2]
      exact closedAt_handles_eq rfl (closedAt_joinNew i k2 sub hclosed)

/-- Sample state for the C9 witness: its one handle is closed. -/
def s9 : SysState := ⟨[⟨[65], false⟩], []⟩

/-- C9 witness: the closed-handle theorem applied at a concrete state
whose handle 0 is closed; CloseKey and CreateKey on it fail with the
state unchanged. -/
theorem c9_witness :
    closeKeyOp s9 0 = (Except.error (), s9) ∧ createKeyOp s9 0 [] = (Except.error (), s9) :=
  ⟨(c9_closed_handles s9 0 0 [] [] 0 0 0 0 0 (RegData.num 0) [] ⟨⟨[65], false⟩, rfl, rfl⟩).1,
    (c9_closed_handles s9 0 0 [] [] 0 0 0 0 0 (RegData.num 0) []
      ⟨⟨[65], false⟩, rfl, rfl⟩).2.1⟩

/-- Sample state for the C10 witness: one open handle. -/
def s10 : SysState := ⟨[⟨[65], true⟩], []⟩

/-- C10 witness: the truth-value theorem applied at a concrete state
whose single open handle is closed by `CloseKey`. -/
theorem c10_witness :
    pyNonzero (mkHKey [66]) = false ∧ pyNonzero (closeK ⟨[67], true⟩) = true ∧
    ∃ k2, (closeKeyOp s10 0).2.handles.get? 0 = some k2 ∧ pyNonzero k2 = true :=
  c10_nonzero [66] ⟨[67], true⟩ s10 0 (by rfl)

end Winereg
